import Mathlib

/-!
Verification of the flattening core of `raml-fleece` (`src/main.js`).

The development shallowly embeds the flattening pipeline:

* `prettyJson` / `tryPrettyJson` (main.js lines 15-28): JSON pretty
  printing with a fixed indent of 2 spaces, with a fallback to the
  original string on parse failure.  `JSON.parse` / `JSON.stringify`
  are platform builtins; they are modelled here by an executable
  recursive-descent parser and printer over a JSON value type.  The
  model restricts JSON numerics to integers (floating point is out
  of scope) and does not model `\u` surrogate pairs.
* `traitsToObject` (lines 55-61): trait list to object conversion.
* `flattenResources` (lines 64-83): pre-order resource flattening.
* `makeExampleFromType` / `makeExamplesOf` (lines 86-112): request
  example synthesis.
* `flattenMethods` (lines 116-134): method and response flattening.

JavaScript objects are modelled as association lists in insertion
order; JavaScript exceptions are modelled with `Except String`.
A second, heap-passing embedding of the same functions is used for
the frame (no-input-mutation) analysis further below.
-/

/-! ## JSON values and `JSON.stringify(x, null, 2)` -/

mutual

inductive Json where
  | jnull : Json
  | jbool : Bool → Json
  | jnum : Int → Json
  | jstr : String → Json
  | jarr : JsonArr → Json
  | jobj : JsonObj → Json

inductive JsonArr where
  | nil : JsonArr
  | cons : Json → JsonArr → JsonArr

inductive JsonObj where
  | nil : JsonObj
  | cons : String → Json → JsonObj → JsonObj

end

/-- `JSON_INDENT_SIZE` from main.js line 15. -/
def JSON_INDENT_SIZE : Nat := 2

def spaces (n : Nat) : String :=
  String.mk (List.replicate n ' ')

/-- Escaping of one character inside a JSON string literal, as
`JSON.stringify` performs it (the common escapes; other control
characters are left verbatim in the model). -/
def escChar (c : Char) : String :=
  if c = '"' then "\\\""
  else if c = '\\' then "\\\\"
  else if c = '\n' then "\\n"
  else if c = '\t' then "\\t"
  else if c = '\r' then "\\r"
  else String.singleton c

def escString : List Char → String
  | [] => ""
  | c :: cs => escChar c ++ escString cs

def quoteStr (s : String) : String :=
  "\"" ++ escString s.toList ++ "\""

mutual

/-- One value of `JSON.stringify(x, null, 2)`, at indentation `ind`. -/
def stringifyVal (ind : Nat) : Json → String
  | Json.jnull => "null"
  | Json.jbool b => if b then "true" else "false"
  | Json.jnum n => toString n
  | Json.jstr s => quoteStr s
  | Json.jarr xs =>
      match xs with
      | JsonArr.nil => "[]"
      | JsonArr.cons _ _ =>
          "[\n" ++ stringifyArr (ind + JSON_INDENT_SIZE) xs ++ "\n" ++ spaces ind ++ "]"
  | Json.jobj kvs =>
      match kvs with
      | JsonObj.nil => "\x7b\x7d"
      | JsonObj.cons _ _ _ =>
          "\x7b\n" ++ stringifyObj (ind + JSON_INDENT_SIZE) kvs ++ "\n" ++ spaces ind ++ "\x7d"
termination_by structural x => x

def stringifyArr (ind : Nat) : JsonArr → String
  | JsonArr.nil => ""
  | JsonArr.cons x tl =>
      spaces ind ++ stringifyVal ind x
        ++ (match tl with | JsonArr.nil => "" | JsonArr.cons _ _ => ",\n")
        ++ stringifyArr ind tl
termination_by structural x => x

def stringifyObj (ind : Nat) : JsonObj → String
  | JsonObj.nil => ""
  | JsonObj.cons k v tl =>
      spaces ind ++ quoteStr k ++ ": " ++ stringifyVal ind v
        ++ (match tl with | JsonObj.nil => "" | JsonObj.cons _ _ _ => ",\n")
        ++ stringifyObj ind tl
termination_by structural x => x

end

/-- `prettyJson` from main.js lines 16-18: `JSON.stringify(x, null, 2)`. -/
def prettyJson (x : Json) : String :=
  stringifyVal 0 x

/-! ## A model of `JSON.parse` (recursive descent, fuel-indexed) -/

def skipWs : List Char → List Char
  | [] => []
  | c :: cs => if c = ' ' ∨ c = '\n' ∨ c = '\t' ∨ c = '\r' then skipWs cs else c :: cs

def hexDigit (c : Char) : Option Nat :=
  if '0' ≤ c ∧ c ≤ '9' then some (c.toNat - 48)
  else if 'a' ≤ c ∧ c ≤ 'f' then some (c.toNat - 87)
  else if 'A' ≤ c ∧ c ≤ 'F' then some (c.toNat - 55)
  else none

def simpleEsc (c : Char) : Option Char :=
  if c = '"' then some '"'
  else if c = '\\' then some '\\'
  else if c = '/' then some '/'
  else if c = 'n' then some '\n'
  else if c = 't' then some '\t'
  else if c = 'r' then some '\r'
  else if c = 'b' then some (Char.ofNat 8)
  else if c = 'f' then some (Char.ofNat 12)
  else none

/-- Body of a JSON string literal (after the opening quote). -/
def parseStrBody : List Char → String → Option (String × List Char)
  | [], _ => none
  | c :: rest, acc =>
    if c = '"' then some (acc, rest)
    else if c = '\\' then
      match rest with
      | [] => none
      | e :: rest2 =>
        if e = 'u' then
          match rest2 with
          | h1 :: h2 :: h3 :: h4 :: rest3 =>
            match hexDigit h1, hexDigit h2, hexDigit h3, hexDigit h4 with
            | some a, some b, some c2, some d =>
                parseStrBody rest3 (acc.push (Char.ofNat (a * 4096 + b * 256 + c2 * 16 + d)))
            | _, _, _, _ => none
          | _ => none
        else
          match simpleEsc e with
          | some c2 => parseStrBody rest2 (acc.push c2)
          | none => none
    else if c.toNat < 32 then none
    else parseStrBody rest (acc.push c)

def spanDigits : List Char → List Char × List Char
  | [] => ([], [])
  | c :: cs =>
    if c.isDigit then
      let p := spanDigits cs
      (c :: p.1, p.2)
    else ([], c :: cs)

def digitsVal (ds : List Char) : Nat :=
  ds.foldl (fun a c => a * 10 + (c.toNat - 48)) 0

/-- A JSON integer literal (strict: no leading zeros). -/
def parseNumDigits (cs : List Char) : Option (Nat × List Char) :=
  let p := spanDigits cs
  match p.1 with
  | [] => none
  | ['0'] => some (0, p.2)
  | '0' :: _ :: _ => none
  | ds => some (digitsVal ds, p.2)

mutual

def parseVal : Nat → List Char → Option (Json × List Char)
  | 0, _ => none
  | fuel + 1, cs =>
    match skipWs cs with
    | 'n' :: 'u' :: 'l' :: 'l' :: rest => some (Json.jnull, rest)
    | 't' :: 'r' :: 'u' :: 'e' :: rest => some (Json.jbool true, rest)
    | 'f' :: 'a' :: 'l' :: 's' :: 'e' :: rest => some (Json.jbool false, rest)
    | '"' :: rest => (parseStrBody rest "").map (fun p => (Json.jstr p.1, p.2))
    | '[' :: rest =>
        (match skipWs rest with
         | ']' :: rest2 => some (Json.jarr JsonArr.nil, rest2)
         | _ => (parseArrRest fuel rest).map (fun q => (Json.jarr q.1, q.2)))
    | '\x7b' :: rest =>
        (match skipWs rest with
         | '\x7d' :: rest2 => some (Json.jobj JsonObj.nil, rest2)
         | _ => (parseObjRest fuel rest).map (fun q => (Json.jobj q.1, q.2)))
    | '-' :: rest => (parseNumDigits rest).map (fun p => (Json.jnum (-(p.1 : Int)), p.2))
    | other => (parseNumDigits other).map (fun p => (Json.jnum (p.1 : Int), p.2))

/-- `value (',' value)* ']'` inside an array literal. -/
def parseArrRest : Nat → List Char → Option (JsonArr × List Char)
  | 0, _ => none
  | fuel + 1, cs =>
    (parseVal fuel cs).bind (fun p =>
      match skipWs p.2 with
      | ',' :: rest => (parseArrRest fuel rest).map (fun q => (JsonArr.cons p.1 q.1, q.2))
      | ']' :: rest => some (JsonArr.cons p.1 JsonArr.nil, rest)
      | _ => none)

/-- `string ':' value (',' ...)* close-brace` inside an object literal. -/
def parseObjRest : Nat → List Char → Option (JsonObj × List Char)
  | 0, _ => none
  | fuel + 1, cs =>
    match skipWs cs with
    | '"' :: rest =>
      (parseStrBody rest "").bind (fun kp =>
        match skipWs kp.2 with
        | ':' :: rest2 =>
          (parseVal fuel rest2).bind (fun vp =>
            match skipWs vp.2 with
            | ',' :: rest3 => (parseObjRest fuel rest3).map (fun q => (JsonObj.cons kp.1 vp.1 q.1, q.2))
            | '\x7d' :: rest3 => some (JsonObj.cons kp.1 vp.1 JsonObj.nil, rest3)
            | _ => none)
        | _ => none)
    | _ => none

end

/-- Model of the `JSON.parse` builtin used by main.js line 24, restricted
to integer numerics.  Returns `none` exactly when `JSON.parse` would throw
in the modelled fragment. -/
def jsonParse (s : String) : Option Json :=
  let cs := s.toList
  match parseVal (2 * cs.length + 2) cs with
  | some p => if (skipWs p.2).isEmpty then some p.1 else none
  | none => none

/-- `tryPrettyJson` from main.js lines 22-28: pretty print a JSON string,
falling back to the original string if there is a parse error. -/
def tryPrettyJson (x : String) : String :=
  match jsonParse x with
  | some j => prettyJson j
  | none => x

/-! ## JavaScript objects as association lists

A JavaScript object is modelled as a list of key/value pairs in
insertion order with unique keys.  `objGet` is property read,
`objSet` is property assignment (update in place on an existing key,
append otherwise), matching `acc[key] = value` semantics. -/

def objGet {α : Type} : List (String × α) → String → Option α
  | [], _ => none
  | p :: ps, k => if p.1 == k then some p.2 else objGet ps k

def objSet {α : Type} : List (String × α) → String → α → List (String × α)
  | [], k, v => [(k, v)]
  | p :: ps, k, v => if p.1 == k then (k, v) :: ps else p :: objSet ps k v

/-- A trait definition body; its contents are never inspected by the
flattener, so it is modelled as a generic object. -/
def TraitDef : Type := List (String × String)

/-- `traitsToObject` from main.js lines 55-61: convert traits from a
list of single-key objects (modelled as key/definition pairs) to one
object, by `acc[key] = obj[key]` over a fold with initial value
`\x7b\x7d`. -/
def traitsToObject (traits : List (String × TraitDef)) : List (String × TraitDef) :=
  traits.foldl (fun acc p => objSet acc p.1 p.2) []

/-! ## The method data model -/

/-- A content-type schema under `body`; only its `example` field is
read (by `_.pluck(_.values(obj.body), 'example')`). -/
structure BodySchema where
  exampleField : Option String
deriving Repr

/-- A content-type schema under a response body-variant; only its
`example` field is read. -/
structure RespSchema where
  exampleField : Option String
deriving Repr

/-- A parameter descriptor: `displayName`, `type` and an optional
literal `example` (absent field modelled as `none`). -/
structure Param where
  displayName : String
  type : String
  exampleField : Option Json

/-- A method as parsed from the RAML tree: `method` (the verb), an
optional `body` mapping from content type to schema, a `params`
sequence, a `responses` mapping code → body-variant → content type →
schema, and other fields that are passed through untouched. -/
structure Method where
  method : String
  body : Option (List (String × BodySchema))
  params : List Param
  responses : List (String × List (String × List (String × RespSchema)))
  other : List (String × String)

/-- The value stored in `requestExamples`: either the per-content-type
list of (possibly absent) pretty-printed examples from the `body`
branch, or the one-element array holding the composite object built
from `params`. -/
inductive ReqExamples where
  | fromBody : List (Option String) → ReqExamples
  | fromParams : List Json → ReqExamples

/-- One flattened response summary (main.js lines 121-131): starts as
an empty object `\x7b\x7d` and each visited content-type schema overwrites
`example`, `code` and `method`.  A field that was never assigned is
`none`. -/
structure RespSummary where
  exampleField : Option (Option String)
  code : Option String
  method : Option String

/-- A flattened method record: all fields of the input method copied
by `_.extend(\x7b\x7d, objForMethod)`, then `requestExamples` and `responses`
assigned (the original `responses` mapping is overwritten). -/
structure FlatMethod where
  method : String
  body : Option (List (String × BodySchema))
  params : List Param
  other : List (String × String)
  requestExamples : Option ReqExamples
  responses : List RespSummary

/-! ## Example synthesis (main.js lines 86-112) -/

/-- `makeExampleFromType` from main.js lines 86-93.  The thrown
`Error` is modelled as `Except.error` carrying the message built at
line 92 (the UnsupportedParameterType error). -/
def makeExampleFromType (t : String) (name : String) : Except String Json :=
  if t == "string" then Except.ok (Json.jstr ("EXAMPLE: " ++ name))
  else if t == "number" then Except.ok (Json.jnum 1234567890)
  else Except.error ("makeExampleFromType not implemented for type " ++ t)

/-- Splitting a display name on dots, modelling `_.toPath` for the
dot-separated names used by `_.set` (bracket syntax is not modelled). -/
def splitDotAux : List Char → String → List String
  | [], acc => [acc]
  | c :: cs, acc => if c = '.' then acc :: splitDotAux cs "" else splitDotAux cs (acc.push c)

def toPath (s : String) : List String :=
  splitDotAux s.toList ""

def objGetJ : JsonObj → String → Option Json
  | JsonObj.nil, _ => none
  | JsonObj.cons k v tl, n => if k == n then some v else objGetJ tl n

def objSetJ : JsonObj → String → Json → JsonObj
  | JsonObj.nil, k, v => JsonObj.cons k v JsonObj.nil
  | JsonObj.cons k' v' tl, k, v =>
      if k' == k then JsonObj.cons k v tl else JsonObj.cons k' v' (objSetJ tl k v)

def JsonObj.isEmpty : JsonObj → Bool
  | JsonObj.nil => true
  | JsonObj.cons _ _ _ => false

/-- `_.set(o, path, value)` on the pure object model: walk the dotted
path, reusing an existing nested object and creating an empty one
otherwise (numeric-index array creation is not modelled). -/
def setPath : JsonObj → List String → Json → JsonObj
  | o, [], _ => o
  | o, [k], v => objSetJ o k v
  | o, k :: k2 :: ks, v =>
      let sub := match objGetJ o k with
        | some (Json.jobj fs) => fs
        | _ => JsonObj.nil
      objSetJ o k (Json.jobj (setPath sub (k2 :: ks) v))

/-- The `_.reduce(params, ...)` loop of main.js lines 102-108:
each parameter contributes its literal `example` if the field is
present, otherwise `makeExampleFromType` (which can throw), and the
result is written into the accumulator at the display-name path. -/
def reduceParams : JsonObj → List Param → Except String JsonObj
  | o, [] => Except.ok o
  | o, v :: vs =>
      match (match v.exampleField with
             | some e => Except.ok e
             | none => makeExampleFromType v.type v.displayName) with
      | Except.error e => Except.error e
      | Except.ok ex => reduceParams (setPath o (toPath v.displayName) ex) vs

/-- `makeExamplesOf` from main.js lines 97-112.  If `body` is present,
map `tryPrettyJson` over the per-content-type examples (an absent
example stays absent, as `JSON.parse(undefined)` throws and the catch
returns the input).  Otherwise reduce over `params`; the result is the
one-element array holding the composite object when it has at least
one key, and `undefined` (`none`) otherwise. -/
def makeExamplesOf (m : Method) : Except String (Option ReqExamples) :=
  match m.body with
  | some b =>
      Except.ok (some (ReqExamples.fromBody (b.map (fun kv => kv.2.exampleField.map tryPrettyJson))))
  | none =>
      match reduceParams JsonObj.nil m.params with
      | Except.error e => Except.error e
      | Except.ok o =>
          Except.ok (if o.isEmpty then none else some (ReqExamples.fromParams [Json.jobj o]))

/-! ## Method and response flattening (main.js lines 116-134) -/

/-- The response flattening of main.js lines 121-131: one summary
object per status code, built by a double iteration over the
body-variants and content types that overwrites the three fields of a
single fresh object on each visit. -/
def flattenResponses (methodName : String)
    (responses : List (String × List (String × List (String × RespSchema)))) :
    List RespSummary :=
  responses.map (fun p =>
    p.2.foldl (fun acc q =>
        q.2.foldl (fun _ r =>
            { exampleField := some r.2.exampleField, code := some p.1, method := some methodName })
          acc)
      { exampleField := none, code := none, method := none })

/-- The per-method body of the `_.map` in `flattenMethods` (main.js
lines 117-133): shallow-copy the method, attach `requestExamples` and
the flattened `responses`. -/
def flattenMethodObj (m : Method) : Except String FlatMethod :=
  match makeExamplesOf m with
  | Except.error e => Except.error e
  | Except.ok re =>
      Except.ok
        { method := m.method
          body := m.body
          params := m.params
          other := m.other
          requestExamples := re
          responses := flattenResponses m.method m.responses }

/-- `flattenMethods` from main.js lines 116-134. -/
def flattenMethods : List Method → Except String (List FlatMethod)
  | [] => Except.ok []
  | m :: ms =>
      match flattenMethodObj m with
      | Except.error e => Except.error e
      | Except.ok f =>
          match flattenMethods ms with
          | Except.error e => Except.error e
          | Except.ok fs => Except.ok (f :: fs)

/-! ## The resource tree and its flattening (main.js lines 64-83) -/

mutual

/-- A node of RAML's nested resource tree, or the `null`/absent value
that the `if (!res) return` guard of main.js line 67 skips.  A node
carries `relativeUri`, `methods`, the child `resources` forest, and
other fields passed through unchanged. -/
inductive RTree where
  | null : RTree
  | node : String → List Method → RForest → List (String × String) → RTree

inductive RForest where
  | nil : RForest
  | cons : RTree → RForest → RForest

end

/-- `_.pluck(parents, 'relativeUri')` entry followed by `join('')`
coercion: a non-node (never pushed onto `parents` in practice)
contributes the empty string exactly as `Array.prototype.join`
renders `undefined`. -/
def relUriOf : RTree → String
  | RTree.null => ""
  | RTree.node u _ _ _ => u

/-- `_.pluck(parents, 'relativeUri').join('')` from main.js line 73. -/
def joinRel (parents : List RTree) : String :=
  (parents.map relUriOf).foldl (fun a b => a ++ b) ""

/-- A flattened resource record: the shallow copy of the node minus
`resources` (so `relativeUri` and the other fields survive), with
`methods`, `basePath` and `path` assigned. -/
structure FlatResource where
  relativeUri : String
  other : List (String × String)
  methods : List FlatMethod
  basePath : String
  path : String

mutual

/-- The inner `recur(parents, res)` of main.js lines 66-80. -/
def recurOne (parents : List RTree) : RTree → Except String (List FlatResource)
  | RTree.null => Except.ok []
  | RTree.node u ms cs oth =>
      match flattenMethods ms with
      | Except.error e => Except.error e
      | Except.ok fm =>
          match recurMany (parents ++ [RTree.node u ms cs oth]) cs with
          | Except.error e => Except.error e
          | Except.ok rest =>
              Except.ok
                ({ relativeUri := u
                   other := oth
                   methods := fm
                   basePath := joinRel parents
                   path := u } :: rest)
termination_by structural x => x

/-- The `_.forEach(res.resources, ...)` recursion over the children,
in declared order. -/
def recurMany (parents : List RTree) : RForest → Except String (List FlatResource)
  | RForest.nil => Except.ok []
  | RForest.cons c cs =>
      match recurOne parents c with
      | Except.error e => Except.error e
      | Except.ok a =>
          match recurMany parents cs with
          | Except.error e => Except.error e
          | Except.ok b => Except.ok (a ++ b)
termination_by structural x => x

end

/-- `flattenResources` from main.js lines 64-83.  The `traits`
parameter is accepted but never read, exactly as in the source. -/
def flattenResources (res : RTree) (traits : List (String × TraitDef)) :
    Except String (List FlatResource) :=
  recurOne [] res

/-! ## Source-tree observations used to state the resource-flattening
claims: the pre-order list of (ancestor-prefix, own-uri) pairs, the
pre-order list of absolute URIs, the node count, and null-freeness. -/

mutual

/-- Pre-order listing of `(prefix, relativeUri)` for every node of the
tree, where `prefix` is the concatenation of the ancestors'
`relativeUri` in root-to-parent order (starting from `pfx`). -/
def prePairs (pfx : String) : RTree → List (String × String)
  | RTree.null => []
  | RTree.node u _ cs _ => (pfx, u) :: prePairsF (pfx ++ u) cs
termination_by structural x => x

def prePairsF (pfx : String) : RForest → List (String × String)
  | RForest.nil => []
  | RForest.cons c cs => prePairs pfx c ++ prePairsF pfx cs
termination_by structural x => x

end

mutual

/-- Pre-order listing of each node's absolute URI in the source tree:
the concatenation of the `relativeUri` of its ancestors followed by
its own. -/
def absUris (pfx : String) : RTree → List String
  | RTree.null => []
  | RTree.node u _ cs _ => (pfx ++ u) :: absUrisF (pfx ++ u) cs
termination_by structural x => x

def absUrisF (pfx : String) : RForest → List String
  | RForest.nil => []
  | RForest.cons c cs => absUris pfx c ++ absUrisF pfx cs
termination_by structural x => x

end

mutual

/-- Number of nodes (root plus all descendants); a null leaf is not a
node. -/
def RTree.size : RTree → Nat
  | RTree.null => 0
  | RTree.node _ _ cs _ => 1 + RForest.size cs
termination_by structural x => x

def RForest.size : RForest → Nat
  | RForest.nil => 0
  | RForest.cons c cs => RTree.size c + RForest.size cs
termination_by structural x => x

end

mutual

/-- The tree contains no `null` entry anywhere. -/
def RTree.noNulls : RTree → Bool
  | RTree.null => false
  | RTree.node _ _ cs _ => RForest.noNulls cs
termination_by structural x => x

def RForest.noNulls : RForest → Bool
  | RForest.nil => true
  | RForest.cons c cs => RTree.noNulls c && RForest.noNulls cs
termination_by structural x => x

end

/-! ## Derived observations used to state the example-synthesis and
response-flattening claims -/

/-- The value a single parameter contributes to the composite example
object: its literal example verbatim when the field is present,
otherwise the placeholder for its declared type ("EXAMPLE: " ++
displayName for "string", 1234567890 for "number"; the value is
irrelevant for unsupported types, where synthesis throws instead). -/
def paramValue (v : Param) : Json :=
  match v.exampleField with
  | some e => e
  | none =>
      if v.type == "string" then Json.jstr ("EXAMPLE: " ++ v.displayName)
      else Json.jnum 1234567890

/-- Last element of a list, `none` for the empty list. -/
def lastElem {α : Type} : List α → Option α
  | [] => none
  | [x] => some x
  | _ :: x :: xs => lastElem (x :: xs)

/-- All content-type schemas under one status code, across its
body-variants, in mapping-iteration order. -/
def joinVariants : List (String × List (String × RespSchema)) → List (String × RespSchema)
  | [] => []
  | q :: qs => q.2 ++ joinVariants qs

/-! ## Heap-passing embedding for the frame analysis (claim C9)

To reason about mutation of the input document the same functions are
embedded a second time in a heap-passing style: JavaScript objects
live in a heap (a list of field maps addressed by position), values
are `HVal`s, property writes go through `hwrite`, and `_.extend(\x7b\x7d, o)`
allocates a fresh object.  Arrays are immutable values (the source
never mutates an input array; lodash path-creation of arrays for
numeric keys is not modelled), and the recursion over the
heap-encoded tree is fuel-indexed (the input tree is finite and
acyclic, so fuel exhaustion is a model artifact only). -/

inductive HVal where
  | undef : HVal
  | hnull : HVal
  | hbool : Bool → HVal
  | hnum : Int → HVal
  | hstr : String → HVal
  | harr : List HVal → HVal
  | href : Nat → HVal

abbrev HObj : Type := List (String × HVal)

abbrev Heap : Type := List HObj

def getAt {α : Type} : List α → Nat → Option α
  | [], _ => none
  | x :: _, 0 => some x
  | _ :: xs, n + 1 => getAt xs n

def setAt {α : Type} : List α → Nat → α → List α
  | [], _, _ => []
  | _ :: xs, 0, a => a :: xs
  | x :: xs, n + 1, a => x :: setAt xs n a

/-- Allocate a fresh object; returns the new heap and its address. -/
def halloc (h : Heap) (o : HObj) : Heap × Nat :=
  (h ++ [o], h.length)

/-- Property assignment `target[k] = v` on the object at address `i`. -/
def hwrite (h : Heap) (i : Nat) (k : String) (v : HVal) : Heap :=
  match getAt h i with
  | some o => setAt h i (objSet o k v)
  | none => h

/-- `delete target[k]` on the object at address `i`. -/
def hdelete (h : Heap) (i : Nat) (k : String) : Heap :=
  match getAt h i with
  | some o => setAt h i (o.filter (fun p => !(p.1 == k)))
  | none => h

/-- JavaScript truthiness (`if (!res) ...`). -/
def HVal.truthy : HVal → Bool
  | HVal.undef => false
  | HVal.hnull => false
  | HVal.hbool b => b
  | HVal.hnum n => !(n == 0)
  | HVal.hstr s => !(s == "")
  | HVal.harr _ => true
  | HVal.href _ => true

/-- Property read `v[k]`; `undefined` on non-objects and missing keys. -/
def getFieldH (h : Heap) (v : HVal) (k : String) : HVal :=
  match v with
  | HVal.href i =>
      match getAt h i with
      | some o => (objGet o k).getD HVal.undef
      | none => HVal.undef
  | _ => HVal.undef

/-- The own fields of an object reference (empty for non-objects),
as `_.extend(\x7b\x7d, o)` copies them. -/
def fieldsOf (h : Heap) (v : HVal) : HObj :=
  match v with
  | HVal.href i => (getAt h i).getD []
  | _ => []

/-- The values iterated by `_.values` / `_.forEach` over an object or
array argument (none for other values). -/
def hvalValues (h : Heap) (v : HVal) : List HVal :=
  match v with
  | HVal.href i => ((getAt h i).getD []).map (fun p => p.2)
  | HVal.harr xs => xs
  | _ => []

/-- Elements iterated by `_.map` over an array value. -/
def elemsOf : HVal → List HVal
  | HVal.harr xs => xs
  | _ => []

/-- `String(v)` coercion. -/
def hvalToStr : HVal → String
  | HVal.undef => "undefined"
  | HVal.hnull => "null"
  | HVal.hbool b => if b then "true" else "false"
  | HVal.hnum n => toString n
  | HVal.hstr s => s
  | HVal.harr _ => ""
  | HVal.href _ => "[object Object]"

/-- Element coercion of `Array.prototype.join`: `undefined` and
`null` become the empty string. -/
def joinElemStr : HVal → String
  | HVal.undef => ""
  | HVal.hnull => ""
  | v => hvalToStr v

/-- `tryPrettyJson` applied to an arbitrary value: `JSON.parse`
coerces its argument to a string first, so strings parse as
themselves, primitives parse as their JSON rendering, and objects,
arrays and `undefined` fail to parse and are returned unchanged. -/
def tryPrettyJsonH : HVal → HVal
  | HVal.hstr s => HVal.hstr (tryPrettyJson s)
  | HVal.hnum n => HVal.hstr (toString n)
  | HVal.hbool b => HVal.hstr (if b then "true" else "false")
  | HVal.hnull => HVal.hstr "null"
  | v => v

/-- `_.toPath` coercion of a display name used as a `_.set` path. -/
def hvalToPath : HVal → List String
  | HVal.hstr s => toPath s
  | HVal.hnum n => [toString n]
  | _ => []

/-- Heap version of `makeExampleFromType` (main.js lines 86-93). -/
def makeExampleFromTypeH (t : HVal) (name : HVal) : Except String HVal :=
  match t with
  | HVal.hstr ts =>
      if ts == "string" then Except.ok (HVal.hstr ("EXAMPLE: " ++ hvalToStr name))
      else if ts == "number" then Except.ok (HVal.hnum 1234567890)
      else Except.error ("makeExampleFromType not implemented for type " ++ ts)
  | v => Except.error ("makeExampleFromType not implemented for type " ++ hvalToStr v)

/-- `_.set(o, path, value)` (lodash `baseSet`): walk the path from the
object at `oid`; an existing nested object is descended into - even
when it is part of the input document - and a missing one is created
fresh. -/
def hsetPath (h : Heap) (oid : Nat) (path : List String) (v : HVal) : Heap :=
  match path with
  | [] => h
  | [k] => hwrite h oid k v
  | k :: k2 :: ks =>
      match getFieldH h (HVal.href oid) k with
      | HVal.href j => hsetPath h j (k2 :: ks) v
      | _ =>
          match halloc h [] with
          | (h1, ni) => hsetPath (hwrite h1 oid k (HVal.href ni)) ni (k2 :: ks) v

/-- The `_.reduce(params, ...)` loop writing into the accumulator
object at `accId` (main.js lines 102-108). -/
def reduceParamsH : Heap → Nat → List HVal → Heap × Except String Unit
  | h, _, [] => (h, Except.ok ())
  | h, accId, v :: vs =>
      match (if (objGet (fieldsOf h v) "example").isSome then
               Except.ok ((objGet (fieldsOf h v) "example").getD HVal.undef)
             else
               makeExampleFromTypeH ((objGet (fieldsOf h v) "type").getD HVal.undef)
                 ((objGet (fieldsOf h v) "displayName").getD HVal.undef)) with
      | Except.error e => (h, Except.error e)
      | Except.ok ex =>
          reduceParamsH
            (hsetPath h accId (hvalToPath ((objGet (fieldsOf h v) "displayName").getD HVal.undef)) ex)
            accId vs

/-- Heap version of `makeExamplesOf` (main.js lines 97-112), reading
`body` and `params` from the method clone at `oi`. -/
def makeExamplesOfH (h : Heap) (oi : Nat) : Heap × Except String HVal :=
  if HVal.truthy (getFieldH h (HVal.href oi) "body") then
    (h, Except.ok (HVal.harr
      ((hvalValues h (getFieldH h (HVal.href oi) "body")).map
        (fun v => tryPrettyJsonH (getFieldH h v "example")))))
  else
    match halloc h [] with
    | (h1, accId) =>
        match reduceParamsH h1 accId (elemsOf (getFieldH h (HVal.href oi) "params")) with
        | (h2, Except.error e) => (h2, Except.error e)
        | (h2, Except.ok _) =>
            (h2, Except.ok
              (if ((getAt h2 accId).getD []).length > 0 then HVal.harr [HVal.href accId]
               else HVal.undef))

/-- The double `_.forEach` of main.js lines 123-128: each visited
content-type schema overwrites `example`, `code` and `method` on the
summary object at `oi`. -/
def respInner (h : Heap) (oi : Nat) (methodName : HVal) (code : String) (objForCode : HVal) :
    Heap :=
  (hvalValues h objForCode).foldl (fun hh objForBody =>
    (hvalValues hh objForBody).foldl (fun hh2 objForRespType =>
      hwrite
        (hwrite
          (hwrite hh2 oi "example" (getFieldH hh2 objForRespType "example"))
          oi "code" (HVal.hstr code))
        oi "method" methodName) hh) h

def flattenRespGo (methodName : HVal) : Heap → List (String × HVal) → Heap × List HVal
  | h, [] => (h, [])
  | h, (code, objForCode) :: rest =>
      match halloc h [] with
      | (h1, oi) =>
          match flattenRespGo methodName (respInner h1 oi methodName code objForCode) rest with
          | (h3, more) => (h3, HVal.href oi :: more)

/-- `_.map(objForMethod.responses, ...)` of main.js lines 121-131. -/
def flattenResponsesH (h : Heap) (methodName : HVal) (responsesVal : HVal) : Heap × HVal :=
  match flattenRespGo methodName h (fieldsOf h responsesVal) with
  | (h1, refs) => (h1, HVal.harr refs)

/-- The per-method loop of `flattenMethods` (main.js lines 117-133):
clone the method object, attach `requestExamples` and the flattened
`responses`. -/
def flattenMethodsGo : Heap → List HVal → Heap × Except String (List HVal)
  | h, [] => (h, Except.ok [])
  | h, mv :: rest =>
      match halloc h (fieldsOf h mv) with
      | (h1, oi) =>
          match makeExamplesOfH h1 oi with
          | (h2, Except.error e) => (h2, Except.error e)
          | (h2, Except.ok exVal) =>
              match flattenResponsesH (hwrite h2 oi "requestExamples" exVal)
                  (getFieldH h2 mv "method")
                  (getFieldH (hwrite h2 oi "requestExamples" exVal) mv "responses") with
              | (h4, respVal) =>
                  match flattenMethodsGo (hwrite h4 oi "responses" respVal) rest with
                  | (h6, Except.error e) => (h6, Except.error e)
                  | (h6, Except.ok more) => (h6, Except.ok (HVal.href oi :: more))

def flattenMethodsH (h : Heap) (methodsVal : HVal) : Heap × Except String HVal :=
  match flattenMethodsGo h (elemsOf methodsVal) with
  | (h1, Except.error e) => (h1, Except.error e)
  | (h1, Except.ok refs) => (h1, Except.ok (HVal.harr refs))

/-- The three record-field writes of main.js lines 72-74 on the fresh
clone at `ci`: `methods`, `basePath` (the join of the parents'
relative URIs, with the `Array.prototype.join` coercion) and `path`. -/
def writeRecord (h3 : Heap) (ci : Nat) (parents : List HVal) (res : HVal) (fmv : HVal) : Heap :=
  hwrite
    (hwrite
      (hwrite h3 ci "methods" fmv)
      ci "basePath"
      (HVal.hstr ((parents.map (fun p =>
        joinElemStr (getFieldH (hwrite h3 ci "methods" fmv) p "relativeUri"))).foldl
          (fun a b => a ++ b) "")))
    ci "path"
    (getFieldH (hwrite h3 ci "methods" fmv) res "relativeUri")

mutual

/-- Heap version of the inner `recur(parents, res)` of
`flattenResources` (main.js lines 66-80). -/
def recurH : Nat → Heap → List HVal → HVal → Heap × Except String (List HVal)
  | 0, h, _, _ => (h, Except.error "model: out of fuel")
  | fuel + 1, h, parents, res =>
      if HVal.truthy res then
        match halloc h (fieldsOf h res) with
        | (h1, ci) =>
            match flattenMethodsH (hdelete h1 ci "resources")
                (getFieldH (hdelete h1 ci "resources") res "methods") with
            | (h3, Except.error e) => (h3, Except.error e)
            | (h3, Except.ok fmv) =>
                match
                  recurManyH fuel
                    (writeRecord h3 ci parents res fmv)
                    (parents ++ [res])
                    (elemsOf (getFieldH h3 res "resources")) with
                | (h7, Except.error e) => (h7, Except.error e)
                | (h7, Except.ok rs) => (h7, Except.ok (HVal.href ci :: rs))
      else (h, Except.ok [])

/-- Heap version of the `_.forEach(res.resources, ...)` recursion. -/
def recurManyH : Nat → Heap → List HVal → List HVal → Heap × Except String (List HVal)
  | 0, h, _, _ => (h, Except.error "model: out of fuel")
  | _ + 1, h, _, [] => (h, Except.ok [])
  | fuel + 1, h, parents, c :: cs =>
      match recurH fuel h parents c with
      | (h1, Except.error e) => (h1, Except.error e)
      | (h1, Except.ok a) =>
          match recurManyH fuel h1 parents cs with
          | (h2, Except.error e) => (h2, Except.error e)
          | (h2, Except.ok b) => (h2, Except.ok (a ++ b))

end

/-- Heap version of `flattenResources` (main.js lines 64-83). -/
def flattenResourcesH (fuel : Nat) (h : Heap) (res : HVal) (traits : HVal) :
    Heap × Except String HVal :=
  match recurH fuel h [] res with
  | (h1, Except.error e) => (h1, Except.error e)
  | (h1, Except.ok xs) => (h1, Except.ok (HVal.harr xs))

/-- Heap version of `traitsToObject` (main.js lines 55-61): the
accumulator is a fresh object; each trait contributes its first key
and that key's value (`acc[undefined]` for a keyless trait). -/
def traitsToObjectH (h : Heap) (traitsVal : HVal) : Heap × HVal :=
  match halloc h [] with
  | (h1, accId) =>
      ((elemsOf traitsVal).foldl (fun hh x =>
          match (fieldsOf hh x).head? with
          | some p => hwrite hh accId p.1 p.2
          | none => hwrite hh accId "undefined" HVal.undef) h1,
       HVal.href accId)

/-- Heap version of `flattenHierarchy` (main.js lines 43-52). -/
def flattenHierarchyH (fuel : Nat) (h : Heap) (root : HVal) : Heap × Except String HVal :=
  match traitsToObjectH h (getFieldH h root "traits") with
  | (h1, traits) =>
      match flattenResourcesH fuel h1 root (getFieldH h root "traits") with
      | (h2, Except.error e) => (h2, Except.error e)
      | (h2, Except.ok resources) =>
          match halloc h2 [("title", getFieldH h root "title"), ("traits", traits), ("resources", resources)] with
          | (h3, oi) => (h3, Except.ok (HVal.href oi))

mutual

/-- Every reference inside the value points below `n`. -/
def HVal.closedB (n : Nat) : HVal → Bool
  | HVal.harr xs => closedListB n xs
  | HVal.href i => decide (i < n)
  | _ => true

def closedListB (n : Nat) : List HVal → Bool
  | [] => true
  | x :: xs => HVal.closedB n x && closedListB n xs

end

/-- The input heap is closed: every field value of every object only
references addresses inside the heap.  This is automatic for a real
JavaScript heap, where references cannot be forged. -/
def HeapClosed (h : Heap) : Prop :=
  ∀ i o, getAt h i = some o → ∀ p ∈ o, HVal.closedB h.length p.2 = true

/-- No object of the input heap carries a `displayName` whose dot
path has more than one segment. -/
def DotFreeHeap (h : Heap) : Prop :=
  ∀ i o s, getAt h i = some o → objGet o "displayName" = some (HVal.hstr s) →
    (toPath s).length ≤ 1

/-- `h1` preserves `h0` as a prefix: every object that existed in
`h0` is unchanged (same address, same fields) in `h1`. -/
def HeapFrame (h0 h1 : Heap) : Prop :=
  h0.length ≤ h1.length ∧ ∀ j, j < h0.length → getAt h1 j = getAt h0 j

/-! ## Helper lemmas for the resource-flattening claims -/

theorem joinRel_snoc (ps : List RTree) (t : RTree) :
    joinRel (ps ++ [t]) = joinRel ps ++ relUriOf t := by
  unfold joinRel
  rw [List.map_append, List.foldl_append]
  rfl

mutual

/-- The pair `(basePath, path)` of every record produced by `recur`,
in order: it is exactly the pre-order pair listing of the subtree,
started at the concatenation of the parents' relative URIs. -/
theorem recurOne_pairs (parents : List RTree) (t : RTree) :
    ∀ xs, recurOne parents t = Except.ok xs →
      xs.map (fun r => (r.basePath, r.path)) = prePairs (joinRel parents) t := by
  cases t with
  | null =>
      intro xs h
      simp only [recurOne] at h
      cases h
      rfl
  | node u ms cs oth =>
      intro xs h
      simp only [recurOne] at h
      cases hm : flattenMethods ms with
      | error e => rw [hm] at h; cases h
      | ok fm =>
          rw [hm] at h
          cases hr : recurMany (parents ++ [RTree.node u ms cs oth]) cs with
          | error e => rw [hr] at h; cases h
          | ok rest =>
              rw [hr] at h
              cases h
              have ih := recurMany_pairs (parents ++ [RTree.node u ms cs oth]) cs rest hr
              rw [joinRel_snoc] at ih
              simp only [List.map_cons, prePairs, relUriOf] at ih ⊢
              rw [ih]
termination_by structural t

theorem recurMany_pairs (parents : List RTree) (ts : RForest) :
    ∀ xs, recurMany parents ts = Except.ok xs →
      xs.map (fun r => (r.basePath, r.path)) = prePairsF (joinRel parents) ts := by
  cases ts with
  | nil =>
      intro xs h
      simp only [recurMany] at h
      cases h
      rfl
  | cons c cs =>
      intro xs h
      simp only [recurMany] at h
      cases hc : recurOne parents c with
      | error e => rw [hc] at h; cases h
      | ok a =>
          rw [hc] at h
          cases hcs : recurMany parents cs with
          | error e => rw [hcs] at h; cases h
          | ok b =>
              rw [hcs] at h
              cases h
              have ih1 := recurOne_pairs parents c a hc
              have ih2 := recurMany_pairs parents cs b hcs
              simp only [prePairsF, List.map_append, ih1, ih2]
termination_by structural ts

end

mutual

/-- Concatenating the two components of each pre-order pair gives the
pre-order absolute URIs of the source tree. -/
theorem prePairs_abs (pfx : String) (t : RTree) :
    (prePairs pfx t).map (fun p => p.1 ++ p.2) = absUris pfx t := by
  cases t with
  | null => rfl
  | node u ms cs oth =>
      simp only [prePairs, absUris, List.map_cons]
      rw [prePairsF_abs (pfx ++ u) cs]
termination_by structural t

theorem prePairsF_abs (pfx : String) (ts : RForest) :
    (prePairsF pfx ts).map (fun p => p.1 ++ p.2) = absUrisF pfx ts := by
  cases ts with
  | nil => rfl
  | cons c cs =>
      simp only [prePairsF, absUrisF, List.map_append]
      rw [prePairs_abs pfx c, prePairsF_abs pfx cs]
termination_by structural ts

end

mutual

/-- The pre-order pair listing has one entry per node of the tree. -/
theorem prePairs_length (pfx : String) (t : RTree) :
    (prePairs pfx t).length = RTree.size t := by
  cases t with
  | null => rfl
  | node u ms cs oth =>
      simp only [prePairs, RTree.size, List.length_cons]
      rw [prePairsF_length (pfx ++ u) cs]
      omega
termination_by structural t

theorem prePairsF_length (pfx : String) (ts : RForest) :
    (prePairsF pfx ts).length = RForest.size ts := by
  cases ts with
  | nil => rfl
  | cons c cs =>
      simp only [prePairsF, RForest.size, List.length_append]
      rw [prePairs_length pfx c, prePairsF_length pfx cs]
termination_by structural ts

end

/-! ## Claims C1-C3: path accumulation, node count, pre-order -/

/-- Claim C1: for every node in the input resource tree, the flattened
record's `basePath` is the concatenation of the ancestors'
`relativeUri` in root-to-parent order and its `path` is the node's own
`relativeUri` (first conjunct, via the pre-order pair listing started
at the empty prefix); `basePath ++ path` is the node's absolute URI as
in the source tree (second conjunct); and the root record has
`basePath = ""` (third conjunct). -/
theorem claim1_basePath (t : RTree) (traits : List (String × TraitDef))
    (xs : List FlatResource) (h : flattenResources t traits = Except.ok xs) :
    xs.map (fun r => (r.basePath, r.path)) = prePairs "" t
    ∧ xs.map (fun r => r.basePath ++ r.path) = absUris "" t
    ∧ (∀ hd rest, xs = hd :: rest → hd.basePath = "") := by
  have hp := recurOne_pairs [] t xs h
  have hpfx : joinRel [] = "" := rfl
  rw [hpfx] at hp
  refine ⟨hp, ?_, ?_⟩
  · have := congrArg (List.map (fun p : String × String => p.1 ++ p.2)) hp
    rw [prePairs_abs "" t] at this
    rw [← this, List.map_map]
    rfl
  · intro hd rest hx
    subst hx
    cases t with
    | null => simp only [prePairs] at hp; cases hp
    | node u ms cs oth =>
        simp only [prePairs, List.map_cons] at hp
        have h1 : (hd.basePath, hd.path) = ("", u) := by
          have := congrArg List.head? hp
          simpa using this
        exact congrArg Prod.fst h1

/-- Witness for C1 at the two-level tree of the spec's end-to-end
example. -/
theorem claim1_basePath_witness :
    flattenResources (RTree.node "/a" [] (RForest.cons (RTree.node "/b" [] RForest.nil []) RForest.nil) []) [] = Except.ok
      [{ relativeUri := "/a", other := [], methods := [], basePath := "", path := "/a" },
       { relativeUri := "/b", other := [], methods := [], basePath := "/a", path := "/b" }]
    ∧ ([{ relativeUri := "/a", other := [], methods := [], basePath := "", path := "/a" },
        { relativeUri := "/b", other := [], methods := [], basePath := "/a", path := "/b" }] : List FlatResource).map
        (fun r => (r.basePath, r.path)) =
      prePairs "" (RTree.node "/a" [] (RForest.cons (RTree.node "/b" [] RForest.nil []) RForest.nil) [])
    ∧ ([{ relativeUri := "/a", other := [], methods := [], basePath := "", path := "/a" },
        { relativeUri := "/b", other := [], methods := [], basePath := "/a", path := "/b" }] : List FlatResource).map
        (fun r => r.basePath ++ r.path) =
      absUris "" (RTree.node "/a" [] (RForest.cons (RTree.node "/b" [] RForest.nil []) RForest.nil) []) :=
  ⟨rfl,
   (claim1_basePath (RTree.node "/a" [] (RForest.cons (RTree.node "/b" [] RForest.nil []) RForest.nil) []) []
      [{ relativeUri := "/a", other := [], methods := [], basePath := "", path := "/a" },
       { relativeUri := "/b", other := [], methods := [], basePath := "/a", path := "/b" }] rfl).1,
   (claim1_basePath (RTree.node "/a" [] (RForest.cons (RTree.node "/b" [] RForest.nil []) RForest.nil) []) []
      [{ relativeUri := "/a", other := [], methods := [], basePath := "", path := "/a" },
       { relativeUri := "/b", other := [], methods := [], basePath := "/a", path := "/b" }] rfl).2.1⟩

/-- Claim C2: for a finite tree with no null nodes, the flattened list
has exactly one record per node of the input tree. -/
theorem claim2_count (t : RTree) (traits : List (String × TraitDef))
    (xs : List FlatResource) (hn : RTree.noNulls t = true)
    (h : flattenResources t traits = Except.ok xs) :
    xs.length = RTree.size t := by
  have hp := recurOne_pairs [] t xs h
  have := congrArg List.length hp
  rw [List.length_map, prePairs_length] at this
  exact this

/-- Witness for C2. -/
theorem claim2_count_witness :
    RTree.noNulls (RTree.node "/a" [] (RForest.cons (RTree.node "/b" [] RForest.nil []) RForest.nil) []) = true
    ∧ ([{ relativeUri := "/a", other := [], methods := [], basePath := "", path := "/a" },
        { relativeUri := "/b", other := [], methods := [], basePath := "/a", path := "/b" }] : List FlatResource).length =
      RTree.size (RTree.node "/a" [] (RForest.cons (RTree.node "/b" [] RForest.nil []) RForest.nil) []) :=
  ⟨rfl, claim2_count _ [] _ rfl rfl⟩

/-- Claim C3: the output is in pre-order.  First conjunct: a node's
record comes first, followed by the concatenation of the flattenings
of its children; second conjunct: the records of a declared-first
sibling subtree precede those of the remaining siblings, in declared
order. -/
theorem claim3_preorder :
    (∀ (u : String) (ms : List Method) (cs : RForest) (oth : List (String × String))
        (traits : List (String × TraitDef)) (xs : List FlatResource),
      flattenResources (RTree.node u ms cs oth) traits = Except.ok xs →
      ∃ fm rest, flattenMethods ms = Except.ok fm
        ∧ recurMany [RTree.node u ms cs oth] cs = Except.ok rest
        ∧ xs = { relativeUri := u, other := oth, methods := fm, basePath := "", path := u } :: rest)
    ∧ (∀ (parents : List RTree) (c : RTree) (cs : RForest) (ys : List FlatResource),
      recurMany parents (RForest.cons c cs) = Except.ok ys →
      ∃ a b, recurOne parents c = Except.ok a
        ∧ recurMany parents cs = Except.ok b
        ∧ ys = a ++ b) := by
  constructor
  · intro u ms cs oth traits xs h
    simp only [flattenResources, recurOne] at h
    cases hm : flattenMethods ms with
    | error e => rw [hm] at h; cases h
    | ok fm =>
        rw [hm] at h
        cases hr : recurMany [RTree.node u ms cs oth] cs with
        | error e =>
            rw [show ([] : List RTree) ++ [RTree.node u ms cs oth] = [RTree.node u ms cs oth] from rfl, hr] at h
            cases h
        | ok rest =>
            rw [show ([] : List RTree) ++ [RTree.node u ms cs oth] = [RTree.node u ms cs oth] from rfl, hr] at h
            cases h
            exact ⟨fm, rest, rfl, rfl, rfl⟩
  · intro parents c cs ys h
    simp only [recurMany] at h
    cases hc : recurOne parents c with
    | error e => rw [hc] at h; cases h
    | ok a =>
        rw [hc] at h
        cases hcs : recurMany parents cs with
        | error e => rw [hcs] at h; cases h
        | ok b =>
            rw [hcs] at h
            cases h
            exact ⟨a, b, rfl, rfl, rfl⟩

/-- Witness for C3 at the spec's two-level example tree. -/
theorem claim3_preorder_witness :
    ∃ fm rest,
      flattenMethods [] = Except.ok fm
      ∧ recurMany [RTree.node "/a" [] (RForest.cons (RTree.node "/b" [] RForest.nil []) RForest.nil) []]
          (RForest.cons (RTree.node "/b" [] RForest.nil []) RForest.nil) = Except.ok rest
      ∧ [{ relativeUri := "/a", other := [], methods := [], basePath := "", path := "/a" },
         { relativeUri := "/b", other := [], methods := [], basePath := "/a", path := "/b" }]
        = ({ relativeUri := "/a", other := [], methods := fm, basePath := "", path := "/a" } : FlatResource) :: rest :=
  claim3_preorder.1 "/a" [] (RForest.cons (RTree.node "/b" [] RForest.nil []) RForest.nil) [] [] _ rfl

/-! ## Claim C4: trait resolution -/

theorem objGet_objSet {α : Type} (m : List (String × α)) (k n : String) (v : α) :
    objGet (objSet m k v) n = if k == n then some v else objGet m n := by
  induction m with
  | nil => simp [objGet, objSet]
  | cons p ps ih =>
      simp only [objSet]
      by_cases h1 : p.1 = k
      · subst h1
        simp only [beq_self_eq_true, if_true, objGet]
        by_cases h2 : p.1 == n
        · simp [h2]
        · simp [h2]
      · simp only [beq_iff_eq, h1, if_false, objGet, ih]
        by_cases h2 : k = n
        · subst h2
          simp [beq_iff_eq, h1]
        · simp [beq_iff_eq, h2]

theorem objGet_append {α : Type} (l1 l2 : List (String × α)) (n : String) :
    objGet (l1 ++ l2) n =
      match objGet l1 n with
      | some v => some v
      | none => objGet l2 n := by
  induction l1 with
  | nil => rfl
  | cons p ps ih =>
      simp only [List.cons_append, objGet]
      by_cases h : p.1 == n
      · simp [h]
      · simp [h, ih]

theorem objGet_foldl_objSet (ts : List (String × TraitDef)) (n : String) :
    ∀ acc, objGet (ts.foldl (fun acc p => objSet acc p.1 p.2) acc) n =
      match objGet ts.reverse n with
      | some v => some v
      | none => objGet acc n := by
  induction ts with
  | nil => intro acc; rfl
  | cons p ps ih =>
      intro acc
      rw [List.foldl_cons, ih (objSet acc p.1 p.2), List.reverse_cons, objGet_append]
      cases objGet ps.reverse n with
      | some v => rfl
      | none =>
          simp only [objGet_objSet, objGet]
          by_cases h : p.1 == n
          · simp [h]
          · simp [h]

/-- Claim C4: `traitsToObject` never fails (it is a total function in
the model), maps the empty trait list to the empty mapping, and binds
each name to the definition of the last input element carrying it
(lookup in the result equals first-match lookup in the reversed input). -/
theorem claim4_traits :
    traitsToObject [] = []
    ∧ ∀ (ts : List (String × TraitDef)) (n : String),
        objGet (traitsToObject ts) n = objGet ts.reverse n := by
  refine ⟨rfl, ?_⟩
  intro ts n
  unfold traitsToObject
  rw [objGet_foldl_objSet ts n []]
  cases objGet ts.reverse n with
  | some v => rfl
  | none => rfl

/-! ## Claim C10: the traits argument of flattenResources is dead -/

/-- Claim C10: `flattenResources` accepts a `traits` argument but never
reads it, so its output is a function of the resource tree alone: any
two trait values give identical outputs. -/
theorem claim10_traitsUnused (res : RTree) (t1 t2 : List (String × TraitDef)) :
    flattenResources res t1 = flattenResources res t2 := rfl

/-! ## Claim C5: body examples -/

/-- Claim C5: when a method declares a `body` mapping,
`makeExamplesOf` succeeds (never raises) and returns one entry per
content type in declared order, each the `tryPrettyJson` image of that
content type's example (an absent example stays absent); and
`tryPrettyJson` pretty-prints with the fixed 2-space indent exactly
when the example parses as JSON, returning the original string
unchanged otherwise. -/
theorem claim5_bodyExamples (m : Method) (b : List (String × BodySchema))
    (hb : m.body = some b) :
    makeExamplesOf m = Except.ok (some (ReqExamples.fromBody
      (b.map (fun kv => kv.2.exampleField.map tryPrettyJson))))
    ∧ (∀ s j, jsonParse s = some j → tryPrettyJson s = prettyJson j)
    ∧ (∀ s, jsonParse s = none → tryPrettyJson s = s) := by
  refine ⟨?_, ?_, ?_⟩
  · simp [makeExamplesOf, hb]
  · intro s j h
    simp [tryPrettyJson, h]
  · intro s h
    simp [tryPrettyJson, h]

/-- Witness for C5: a JSON example is re-serialized with 2-space
indent, a non-JSON example is passed through unchanged. -/
theorem claim5_bodyExamples_witness :
    ({ method := "post", body := some [("application/json", ⟨some "\x7b\"a\":1\x7d"⟩), ("text/plain", ⟨some "not json"⟩)], params := [], responses := [], other := [] } : Method).body
      = some [("application/json", ⟨some "\x7b\"a\":1\x7d"⟩), ("text/plain", ⟨some "not json"⟩)]
    ∧ makeExamplesOf { method := "post", body := some [("application/json", ⟨some "\x7b\"a\":1\x7d"⟩), ("text/plain", ⟨some "not json"⟩)], params := [], responses := [], other := [] }
      = Except.ok (some (ReqExamples.fromBody [some "\x7b\n  \"a\": 1\n\x7d", some "not json"])) :=
  ⟨rfl,
   (claim5_bodyExamples
     { method := "post", body := some [("application/json", ⟨some "\x7b\"a\":1\x7d"⟩), ("text/plain", ⟨some "not json"⟩)], params := [], responses := [], other := [] }
     [("application/json", ⟨some "\x7b\"a\":1\x7d"⟩), ("text/plain", ⟨some "not json"⟩)] rfl).1.trans rfl⟩

/-! ## Claim C7: neither body nor params -/

/-- Claim C7: a method with no `body` and an empty `params` sequence
flattens to a record whose `requestExamples` is absent (`none`), not
an empty list. -/
theorem claim7_noExamples (m : Method) (hb : m.body = none) (hp : m.params = []) :
    flattenMethodObj m = Except.ok
      { method := m.method
        body := m.body
        params := m.params
        other := m.other
        requestExamples := none
        responses := flattenResponses m.method m.responses } := by
  simp [flattenMethodObj, makeExamplesOf, hb, hp, reduceParams, JsonObj.isEmpty]

/-- Witness for C7. -/
theorem claim7_noExamples_witness :
    ({ method := "get", body := none, params := [], responses := [], other := [] } : Method).body = none
    ∧ ({ method := "get", body := none, params := [], responses := [], other := [] } : Method).params = []
    ∧ flattenMethodObj { method := "get", body := none, params := [], responses := [], other := [] }
      = Except.ok { method := "get", body := none, params := [], other := [], requestExamples := none, responses := [] } :=
  ⟨rfl, rfl,
   (claim7_noExamples { method := "get", body := none, params := [], responses := [], other := [] } rfl rfl).trans rfl⟩

/-! ## Claim C6: parameter-based examples -/

theorem goodParam_step (v : Param)
    (h : v.exampleField.isSome ∨ v.type = "string" ∨ v.type = "number") :
    (match v.exampleField with
     | some e => Except.ok e
     | none => makeExampleFromType v.type v.displayName) = Except.ok (paramValue v) := by
  cases hv : v.exampleField with
  | some e => simp [paramValue, hv]
  | none =>
      simp only [hv, Option.isSome_none, Bool.false_eq_true, false_or] at h
      simp only [paramValue, hv]
      rcases h with h | h
      · simp [makeExampleFromType, h]
      · simp [makeExampleFromType, h]

theorem reduceParams_good (ps : List Param)
    (h : ∀ v ∈ ps, v.exampleField.isSome ∨ v.type = "string" ∨ v.type = "number") :
    ∀ o, reduceParams o ps =
      Except.ok (ps.foldl (fun o v => setPath o (toPath v.displayName) (paramValue v)) o) := by
  induction ps with
  | nil => intro o; rfl
  | cons v vs ih =>
      intro o
      have hv := h v (by simp)
      have hstep := goodParam_step v hv
      simp only [reduceParams, hstep, List.foldl_cons]
      exact ih (fun w hw => h w (by simp [hw])) _

theorem splitDotAux_ne_nil (cs : List Char) : ∀ acc, splitDotAux cs acc ≠ [] := by
  induction cs with
  | nil => intro acc; simp [splitDotAux]
  | cons c cs ih =>
      intro acc
      simp only [splitDotAux]
      by_cases h : c = '.'
      · simp [h]
      · simp only [h, if_false]
        exact ih _

theorem toPath_ne_nil (s : String) : toPath s ≠ [] :=
  splitDotAux_ne_nil s.toList ""

theorem objSetJ_isEmpty (o : JsonObj) (k : String) (v : Json) :
    (objSetJ o k v).isEmpty = false := by
  cases o with
  | nil => rfl
  | cons k' v' tl =>
      simp only [objSetJ]
      split
      · rfl
      · rfl

theorem setPath_isEmpty (o : JsonObj) (p : List String) (v : Json) (hp : p ≠ []) :
    (setPath o p v).isEmpty = false := by
  match p with
  | [] => exact absurd rfl hp
  | [k] => simpa only [setPath] using objSetJ_isEmpty o k v
  | k :: k2 :: ks => simpa only [setPath] using objSetJ_isEmpty o k _

theorem foldParams_isEmpty :
    ∀ (ps : List Param) (o : JsonObj), ps ≠ [] →
      ((ps.foldl (fun o v => setPath o (toPath v.displayName) (paramValue v)) o)).isEmpty = false := by
  intro ps
  induction ps with
  | nil => intro o h; exact absurd rfl h
  | cons v vs ih =>
      intro o _
      cases hvs : vs with
      | nil =>
          subst hvs
          simpa only [List.foldl_cons, List.foldl_nil] using
            setPath_isEmpty o (toPath v.displayName) (paramValue v) (toPath_ne_nil _)
      | cons v2 rest =>
          rw [List.foldl_cons, ← hvs]
          exact ih _ (by rw [hvs]; simp)

theorem reduceParams_err (ps : List Param) (v : Param) (hv : v ∈ ps)
    (he : v.exampleField = none) (hs : v.type ≠ "string") (hn : v.type ≠ "number") :
    ∀ o, ∃ t, reduceParams o ps = Except.error ("makeExampleFromType not implemented for type " ++ t) := by
  induction ps with
  | nil => cases hv
  | cons w ws ih =>
      intro o
      cases hw : w.exampleField with
      | some e =>
          have hvw : v ∈ ws := by
            rcases List.mem_cons.mp hv with h | h
            · subst h; rw [he] at hw; cases hw
            · exact h
          simp only [reduceParams, hw]
          exact ih hvw _
      | none =>
          by_cases h1 : w.type = "string"
          · have hvw : v ∈ ws := by
              rcases List.mem_cons.mp hv with h | h
              · subst h; exact absurd h1 hs
              · exact h
            simp only [reduceParams, hw, makeExampleFromType, h1]
            simp only [beq_iff_eq, if_pos rfl]
            exact ih hvw _
          · by_cases h2 : w.type = "number"
            · have hvw : v ∈ ws := by
                rcases List.mem_cons.mp hv with h | h
                · subst h; exact absurd h2 hn
                · exact h
              simp only [reduceParams, hw, makeExampleFromType, h2]
              simp only [beq_iff_eq, if_neg (by simp : ¬ ("number" : String) = "string"), if_pos rfl]
              exact ih hvw _
            · refine ⟨w.type, ?_⟩
              simp only [reduceParams, hw, makeExampleFromType, beq_iff_eq, if_neg h1, if_neg h2]

/-- Claim C6: for a method with no `body`, (1) when every parameter
either carries a literal example or has type `"string"` or
`"number"`, synthesis succeeds and builds the one-element array
holding the composite object in which each parameter contributed its
literal example verbatim, or else the type placeholder, written at
its display-name path; (2) if any parameter lacks an example and is
of any other type, synthesis raises the UnsupportedParameterType
error (the `Error` built at main.js line 92) instead of returning a
result. -/
theorem claim6_paramExamples (m : Method) (hb : m.body = none) :
    (m.params ≠ [] →
      (∀ v ∈ m.params, v.exampleField.isSome ∨ v.type = "string" ∨ v.type = "number") →
      makeExamplesOf m = Except.ok (some (ReqExamples.fromParams
        [Json.jobj (m.params.foldl
          (fun o v => setPath o (toPath v.displayName) (paramValue v)) JsonObj.nil)])))
    ∧ (∀ v ∈ m.params, v.exampleField = none → v.type ≠ "string" → v.type ≠ "number" →
      ∃ t, makeExamplesOf m = Except.error ("makeExampleFromType not implemented for type " ++ t)) := by
  constructor
  · intro hne hgood
    simp only [makeExamplesOf, hb]
    rw [reduceParams_good m.params hgood JsonObj.nil]
    have hie := foldParams_isEmpty m.params JsonObj.nil hne
    simp [hie]
  · intro v hv he hs hn
    obtain ⟨t, ht⟩ := reduceParams_err m.params v hv he hs hn JsonObj.nil
    refine ⟨t, ?_⟩
    simp only [makeExamplesOf, hb, ht]

/-- Witness for C6 (success branch) at the spec's examples: a
string-typed parameter with no example, a number-typed one, and a
boolean-typed one carrying a literal example. -/
theorem claim6_paramExamples_witness :
    ({ method := "get", body := none, params := [⟨"x", "string", none⟩, ⟨"n", "number", none⟩, ⟨"lit", "boolean", some (Json.jstr "v")⟩], responses := [], other := [] } : Method).body = none
    ∧ makeExamplesOf { method := "get", body := none, params := [⟨"x", "string", none⟩, ⟨"n", "number", none⟩, ⟨"lit", "boolean", some (Json.jstr "v")⟩], responses := [], other := [] }
      = Except.ok (some (ReqExamples.fromParams [Json.jobj
          (JsonObj.cons "x" (Json.jstr "EXAMPLE: x")
            (JsonObj.cons "n" (Json.jnum 1234567890)
              (JsonObj.cons "lit" (Json.jstr "v") JsonObj.nil)))])) :=
  ⟨rfl,
   ((claim6_paramExamples
      { method := "get", body := none, params := [⟨"x", "string", none⟩, ⟨"n", "number", none⟩, ⟨"lit", "boolean", some (Json.jstr "v")⟩], responses := [], other := [] }
      rfl).1
    (by simp)
    (by
      intro v hv
      simp only [List.mem_cons, List.mem_singleton] at hv
      rcases hv with rfl | rfl | rfl | h
      · right; left; rfl
      · right; right; rfl
      · left; rfl
      · cases h)).trans rfl⟩

/-! ## Claim C8: response flattening -/

theorem lastElem_eq_none (l : List α) : lastElem l = none ↔ l = [] := by
  induction l with
  | nil => simp [lastElem]
  | cons x xs ih =>
      cases xs with
      | nil => simp [lastElem]
      | cons y ys =>
          simp only [lastElem]
          constructor
          · intro h
            have := ih.mp h
            cases this
          · intro h
            cases h

theorem foldl_overwrite {α β : Type} (g : α → β) :
    ∀ (l : List α) (acc : β),
      l.foldl (fun _ r => g r) acc =
        match lastElem l with
        | none => acc
        | some r => g r := by
  intro l
  induction l with
  | nil => intro acc; rfl
  | cons x xs ih =>
      intro acc
      rw [List.foldl_cons, ih (g x)]
      cases xs with
      | nil => rfl
      | cons y ys =>
          simp only [lastElem]
          cases h : lastElem (y :: ys) with
          | none => exact absurd ((lastElem_eq_none _).mp h) (by simp)
          | some r => rfl

theorem lastElem_cons (x : α) (l : List α) (h : l ≠ []) :
    lastElem (x :: l) = lastElem l := by
  cases l with
  | nil => exact absurd rfl h
  | cons y ys => rfl

theorem lastElem_append (l1 l2 : List α) :
    lastElem (l1 ++ l2) =
      match lastElem l2 with
      | none => lastElem l1
      | some x => some x := by
  induction l1 with
  | nil =>
      cases h : lastElem l2 with
      | none => simp only [List.nil_append, h, lastElem]
      | some x => simp only [List.nil_append, h]
  | cons x xs ih =>
      by_cases hl : xs ++ l2 = []
      · rcases List.append_eq_nil.mp hl with ⟨h1, h2⟩
        subst h1; subst h2
        rfl
      · rw [List.cons_append, lastElem_cons x _ hl, ih]
        cases h2 : lastElem l2 with
        | some v => rfl
        | none =>
            have : l2 = [] := (lastElem_eq_none l2).mp h2
            subst this
            have hxs : xs ≠ [] := by simpa using hl
            rw [lastElem_cons x xs hxs]

theorem fold2_overwrite {β : Type} (g : String × RespSchema → β)
    (variants : List (String × List (String × RespSchema))) :
    ∀ acc, variants.foldl (fun a q => q.2.foldl (fun _ r => g r) a) acc =
      match lastElem (joinVariants variants) with
      | none => acc
      | some r => g r := by
  induction variants with
  | nil => intro acc; rfl
  | cons q qs ih =>
      intro acc
      rw [List.foldl_cons, foldl_overwrite g q.2 acc, ih]
      simp only [joinVariants, lastElem_append]
      cases lastElem (joinVariants qs) with
      | some r => rfl
      | none =>
          cases lastElem q.2 with
          | some r => rfl
          | none => rfl

/-- Counterexample to C8 as stated: for a method with a `responses`
mapping whose status code `200` has no content-type schema under it
(an empty set of body-variants), the surviving summary is the empty
object: it carries neither the status code nor the method verb,
contradicting "each surviving summary carries the example, the status
code, and the method verb". -/
theorem claim8_counterexample :
    flattenResponses "get" [("200", [])] = [{ exampleField := none, code := none, method := none }]
    ∧ ({ exampleField := none, code := none, method := none } : RespSummary).code ≠ some "200"
    ∧ ({ exampleField := none, code := none, method := none } : RespSummary).method ≠ some "get" := by
  refine ⟨rfl, ?_, ?_⟩ <;> simp

/-- Claim C8 as amended: response flattening produces exactly one
summary per status code, in mapping order; a summary for a code with
at least one content-type schema carries the example of the last
schema visited in mapping-iteration order (across body-variants and
content types), together with the status code and the method verb,
while a code with no schemas yields the empty summary with none of
the three fields assigned. -/
theorem claim8_amended (name : String)
    (rs : List (String × List (String × List (String × RespSchema)))) :
    flattenResponses name rs = rs.map (fun p =>
      match lastElem (joinVariants p.2) with
      | none => { exampleField := none, code := none, method := none }
      | some r => { exampleField := some r.2.exampleField, code := some p.1, method := some name }) := by
  unfold flattenResponses
  induction rs with
  | nil => rfl
  | cons p ps ih =>
      simp only [List.map_cons]
      rw [ih]
      congr 1
      exact fold2_overwrite
        (fun r => ({ exampleField := some r.2.exampleField, code := some p.1, method := some name } : RespSummary))
        p.2 { exampleField := none, code := none, method := none }

/-! ## Claim C9: frame lemmas for the heap embedding -/

theorem getAt_append_left {α : Type} (l1 l2 : List α) (j : Nat) (hj : j < l1.length) :
    getAt (l1 ++ l2) j = getAt l1 j := by
  induction l1 generalizing j with
  | nil => simp at hj
  | cons x xs ih =>
      cases j with
      | zero => rfl
      | succ n =>
          simp only [List.cons_append, getAt]
          exact ih n (by simpa using hj)

theorem getAt_append_self {α : Type} (l : List α) (x : α) :
    getAt (l ++ [x]) l.length = some x := by
  induction l with
  | nil => rfl
  | cons y ys ih => simpa using ih

theorem length_setAt {α : Type} (l : List α) (i : Nat) (a : α) :
    (setAt l i a).length = l.length := by
  induction l generalizing i with
  | nil => rfl
  | cons x xs ih =>
      cases i with
      | zero => rfl
      | succ n => simp [setAt, ih]

theorem getAt_setAt_ne {α : Type} (l : List α) (i : Nat) (a : α) (j : Nat) (h : j ≠ i) :
    getAt (setAt l i a) j = getAt l j := by
  induction l generalizing i j with
  | nil => rfl
  | cons x xs ih =>
      cases i with
      | zero =>
          cases j with
          | zero => exact absurd rfl h
          | succ m => rfl
      | succ n =>
          cases j with
          | zero => rfl
          | succ m =>
              simp only [setAt, getAt]
              exact ih n m (by omega)

theorem frame_refl (h : Heap) : HeapFrame h h :=
  ⟨Nat.le_refl _, fun _ _ => rfl⟩

theorem frame_trans {h0 h1 h2 : Heap} (f1 : HeapFrame h0 h1) (f2 : HeapFrame h1 h2) :
    HeapFrame h0 h2 :=
  ⟨Nat.le_trans f1.1 f2.1, fun j hj => (f2.2 j (Nat.lt_of_lt_of_le hj f1.1)).trans (f1.2 j hj)⟩

theorem frame_append {h0 h : Heap} (F : HeapFrame h0 h) (o : HObj) :
    HeapFrame h0 (h ++ [o]) := by
  refine ⟨by simpa using Nat.le_succ_of_le F.1, fun j hj => ?_⟩
  rw [getAt_append_left h [o] j (Nat.lt_of_lt_of_le hj F.1)]
  exact F.2 j hj

theorem frame_hwrite {h0 h : Heap} (F : HeapFrame h0 h) {i : Nat}
    (hi : h0.length ≤ i) (k : String) (v : HVal) :
    HeapFrame h0 (hwrite h i k v) := by
  unfold hwrite
  cases getAt h i with
  | none => exact F
  | some o =>
      refine ⟨by rw [length_setAt]; exact F.1, fun j hj => ?_⟩
      rw [getAt_setAt_ne h i _ j (by omega)]
      exact F.2 j hj

theorem frame_hdelete {h0 h : Heap} (F : HeapFrame h0 h) {i : Nat}
    (hi : h0.length ≤ i) (k : String) :
    HeapFrame h0 (hdelete h i k) := by
  unfold hdelete
  cases getAt h i with
  | none => exact F
  | some o =>
      refine ⟨by rw [length_setAt]; exact F.1, fun j hj => ?_⟩
      rw [getAt_setAt_ne h i _ j (by omega)]
      exact F.2 j hj

theorem frame_hsetPath {h0 h : Heap} (F : HeapFrame h0 h) {oid : Nat}
    (hi : h0.length ≤ oid) {path : List String} (hp : path.length ≤ 1) (v : HVal) :
    HeapFrame h0 (hsetPath h oid path v) := by
  match path with
  | [] => exact F
  | [k] => exact frame_hwrite F hi k v
  | k :: k2 :: ks => simp at hp

theorem frame_foldl {α : Type} {h0 : Heap} (f : Heap → α → Heap)
    (hf : ∀ hh x, HeapFrame h0 hh → HeapFrame h0 (f hh x)) :
    ∀ (l : List α) (h : Heap), HeapFrame h0 h → HeapFrame h0 (l.foldl f h) := by
  intro l
  induction l with
  | nil => intro h F; exact F
  | cons x xs ih =>
      intro h F
      rw [List.foldl_cons]
      exact ih _ (hf h x F)

theorem frame_respInner {h0 h : Heap} (F : HeapFrame h0 h) {oi : Nat}
    (hi : h0.length ≤ oi) (mn : HVal) (code : String) (v : HVal) :
    HeapFrame h0 (respInner h oi mn code v) := by
  unfold respInner
  refine frame_foldl _ (fun hh x Fh => ?_) _ h F
  refine frame_foldl _ (fun hh2 y Fh2 => ?_) _ hh Fh
  exact frame_hwrite (frame_hwrite (frame_hwrite Fh2 hi _ _) hi _ _) hi _ _

theorem frame_flattenRespGo {h0 : Heap} (mn : HVal) :
    ∀ (l : List (String × HVal)) (h : Heap), HeapFrame h0 h →
      HeapFrame h0 (flattenRespGo mn h l).1 := by
  intro l
  induction l with
  | nil => intro h F; exact F
  | cons p rest ih =>
      intro h F
      simp only [flattenRespGo, halloc]
      have F1 : HeapFrame h0 (respInner (h ++ [[]]) h.length mn p.1 p.2) :=
        frame_respInner (frame_append F []) F.1 mn p.1 p.2
      have := ih _ F1
      cases hrec : flattenRespGo mn (respInner (h ++ [[]]) h.length mn p.1 p.2) rest with
      | mk h3 more =>
          rw [hrec] at this
          exact this

theorem objGet_mem {α : Type} : ∀ (o : List (String × α)) (k : String) (v : α),
    objGet o k = some v → (k, v) ∈ o := by
  intro o
  induction o with
  | nil => intro k v h; cases h
  | cons p ps ih =>
      intro k v h
      simp only [objGet] at h
      by_cases hk : p.1 == k
      · rw [if_pos hk] at h
        cases h
        have hpk : p.1 = k := by simpa using hk
        cases p with
        | mk a b =>
            simp only at hpk
            subst hpk
            exact List.mem_cons_self _ _
      · rw [if_neg hk] at h
        exact List.mem_cons_of_mem p (ih k v h)

theorem closedList_mem {n : Nat} : ∀ (xs : List HVal), closedListB n xs = true →
    ∀ x ∈ xs, HVal.closedB n x = true := by
  intro xs
  induction xs with
  | nil => intro _ x hx; cases hx
  | cons y ys ih =>
      intro h x hx
      simp only [closedListB, Bool.and_eq_true] at h
      rcases List.mem_cons.mp hx with rfl | hx2
      · exact h.1
      · exact ih h.2 x hx2

theorem elems_closed {n : Nat} (v : HVal) (hv : HVal.closedB n v = true) :
    ∀ x ∈ elemsOf v, HVal.closedB n x = true := by
  cases v with
  | harr xs =>
      simp only [HVal.closedB] at hv
      exact closedList_mem xs hv
  | undef => intro x hx; cases hx
  | hnull => intro x hx; cases hx
  | hbool b => intro x hx; cases hx
  | hnum m => intro x hx; cases hx
  | hstr s => intro x hx; cases hx
  | href i => intro x hx; cases hx

theorem ownFieldClosed {h : Heap} {oi : Nat} {n : Nat}
    (hflds : ∀ p ∈ (getAt h oi).getD ([] : HObj), HVal.closedB n p.2 = true) (k : String) :
    HVal.closedB n (getFieldH h (HVal.href oi) k) = true := by
  unfold getFieldH
  cases hg : getAt h oi with
  | none => simp [hg, HVal.closedB]
  | some o =>
      cases hgo : objGet o k with
      | none => simp [hg, hgo, HVal.closedB]
      | some val =>
          simp only [hg, hgo, Option.getD]
          refine hflds (k, val) ?_
          rw [hg]
          simpa using objGet_mem o k val hgo

theorem getFieldClosed {h0 h : Heap} (HC : HeapClosed h0) (F : HeapFrame h0 h)
    (v : HVal) (hv : HVal.closedB h0.length v = true) (k : String) :
    HVal.closedB h0.length (getFieldH h v k) = true := by
  cases v with
  | href i =>
      have hi : i < h0.length := by simpa [HVal.closedB] using hv
      have hflds : ∀ p ∈ (getAt h i).getD ([] : HObj), HVal.closedB h0.length p.2 = true := by
        rw [F.2 i hi]
        cases hgo : getAt h0 i with
        | none => intro p hp; cases hp
        | some o =>
            intro p hp
            exact HC i o hgo p (by simpa using hp)
      exact ownFieldClosed hflds k
  | undef => simp [getFieldH, HVal.closedB]
  | hnull => simp [getFieldH, HVal.closedB]
  | hbool b => simp [getFieldH, HVal.closedB]
  | hnum m => simp [getFieldH, HVal.closedB]
  | hstr s => simp [getFieldH, HVal.closedB]
  | harr xs => simp [getFieldH, HVal.closedB]

/-- Under frame preservation, the `_.set` path derived from a
parameter's display name has at most one segment: the parameter is an
unmodified input object and the input heap is dot-free. -/
theorem paramPath_short {h0 h : Heap} (DF : DotFreeHeap h0) (F : HeapFrame h0 h)
    (v : HVal) (hv : HVal.closedB h0.length v = true) :
    (hvalToPath ((objGet (fieldsOf h v) "displayName").getD HVal.undef)).length ≤ 1 := by
  cases v with
  | href i =>
      have hi : i < h0.length := by simpa [HVal.closedB] using hv
      simp only [fieldsOf]
      rw [F.2 i hi]
      cases hgo : getAt h0 i with
      | none => simp [hgo, hvalToPath, objGet]
      | some o =>
          simp only [hgo, Option.getD]
          cases hdn : objGet o "displayName" with
          | none => simp [hdn, hvalToPath]
          | some dn =>
              simp only [hdn, Option.getD]
              cases dn with
              | hstr s => exact DF i o s hgo hdn
              | undef => simp [hvalToPath]
              | hnull => simp [hvalToPath]
              | hbool b => simp [hvalToPath]
              | hnum m => simp [hvalToPath]
              | harr xs => simp [hvalToPath]
              | href j => simp [hvalToPath]
  | undef => simp [fieldsOf, objGet, hvalToPath]
  | hnull => simp [fieldsOf, objGet, hvalToPath]
  | hbool b => simp [fieldsOf, objGet, hvalToPath]
  | hnum m => simp [fieldsOf, objGet, hvalToPath]
  | hstr s => simp [fieldsOf, objGet, hvalToPath]
  | harr xs => simp [fieldsOf, objGet, hvalToPath]

theorem frame_reduceParamsH {h0 : Heap} (DF : DotFreeHeap h0) :
    ∀ (vs : List HVal) (h : Heap) (accId : Nat), HeapFrame h0 h → h0.length ≤ accId →
      (∀ v ∈ vs, HVal.closedB h0.length v = true) →
      HeapFrame h0 (reduceParamsH h accId vs).1 := by
  intro vs
  induction vs with
  | nil => intro h accId F _ _; exact F
  | cons v vs ih =>
      intro h accId F hacc hcl
      simp only [reduceParamsH]
      cases hstep : (if (objGet (fieldsOf h v) "example").isSome then
               Except.ok ((objGet (fieldsOf h v) "example").getD HVal.undef)
             else
               makeExampleFromTypeH ((objGet (fieldsOf h v) "type").getD HVal.undef)
                 ((objGet (fieldsOf h v) "displayName").getD HVal.undef)) with
      | error e => exact F
      | ok ex =>
          exact ih _ accId
            (frame_hsetPath F hacc (paramPath_short DF F v (hcl v (by simp))) ex)
            hacc (fun w hw => hcl w (by simp [hw]))

theorem frame_makeExamplesOfH {h0 : Heap} (DF : DotFreeHeap h0) (h : Heap) (oi : Nat)
    (F : HeapFrame h0 h)
    (hflds : ∀ p ∈ (getAt h oi).getD ([] : HObj), HVal.closedB h0.length p.2 = true) :
    HeapFrame h0 (makeExamplesOfH h oi).1 := by
  unfold makeExamplesOfH
  split
  · exact F
  · simp only [halloc]
    have hparams : ∀ x ∈ elemsOf (getFieldH h (HVal.href oi) "params"),
        HVal.closedB h0.length x = true :=
      elems_closed _ (ownFieldClosed hflds "params")
    have hframe := frame_reduceParamsH DF (elemsOf (getFieldH h (HVal.href oi) "params"))
      (h ++ [[]]) h.length (frame_append F []) F.1 hparams
    cases hr : reduceParamsH (h ++ [[]]) h.length (elemsOf (getFieldH h (HVal.href oi) "params")) with
    | mk h2 r =>
        rw [hr] at hframe
        cases r with
        | error e => exact hframe
        | ok u => exact hframe

theorem fieldsOf_closed {h0 h : Heap} (HC : HeapClosed h0) (F : HeapFrame h0 h)
    (v : HVal) (hv : HVal.closedB h0.length v = true) :
    ∀ p ∈ fieldsOf h v, HVal.closedB h0.length p.2 = true := by
  cases v with
  | href i =>
      have hi : i < h0.length := by simpa [HVal.closedB] using hv
      simp only [fieldsOf]
      rw [F.2 i hi]
      cases hgo : getAt h0 i with
      | none => intro p hp; simp at hp
      | some o =>
          intro p hp
          exact HC i o hgo p (by simpa using hp)
  | undef => intro p hp; simp [fieldsOf] at hp
  | hnull => intro p hp; simp [fieldsOf] at hp
  | hbool b => intro p hp; simp [fieldsOf] at hp
  | hnum m => intro p hp; simp [fieldsOf] at hp
  | hstr s => intro p hp; simp [fieldsOf] at hp
  | harr xs => intro p hp; simp [fieldsOf] at hp

theorem frame_flattenResponsesH {h0 h : Heap} (F : HeapFrame h0 h) (mn resp : HVal) :
    HeapFrame h0 (flattenResponsesH h mn resp).1 := by
  unfold flattenResponsesH
  have hfr := frame_flattenRespGo mn (fieldsOf h resp) h F
  cases hg : flattenRespGo mn h (fieldsOf h resp) with
  | mk h1 refs =>
      rw [hg] at hfr
      exact hfr

theorem frame_flattenMethodsGo {h0 : Heap} (HC : HeapClosed h0) (DF : DotFreeHeap h0) :
    ∀ (ms : List HVal) (h : Heap), HeapFrame h0 h →
      (∀ mv ∈ ms, HVal.closedB h0.length mv = true) →
      HeapFrame h0 (flattenMethodsGo h ms).1 := by
  intro ms
  induction ms with
  | nil => intro h F _; exact F
  | cons mv rest ih =>
      intro h F hcl
      simp only [flattenMethodsGo, halloc]
      have F1 : HeapFrame h0 (h ++ [fieldsOf h mv]) := frame_append F _
      have hflds1 : ∀ p ∈ (getAt (h ++ [fieldsOf h mv]) h.length).getD ([] : HObj),
          HVal.closedB h0.length p.2 = true := by
        rw [getAt_append_self]
        simpa using fieldsOf_closed HC F mv (hcl mv (by simp))
      have F2 := frame_makeExamplesOfH DF _ _ F1 hflds1
      cases hm : makeExamplesOfH (h ++ [fieldsOf h mv]) h.length with
      | mk h2 r =>
          rw [hm] at F2
          cases r with
          | error e => exact F2
          | ok exVal =>
              dsimp only
              have hoi : h0.length ≤ h.length := F.1
              have F3 : HeapFrame h0 (hwrite h2 h.length "requestExamples" exVal) :=
                frame_hwrite F2 hoi _ _
              have F4 := frame_flattenResponsesH F3 (getFieldH h2 mv "method")
                (getFieldH (hwrite h2 h.length "requestExamples" exVal) mv "responses")
              generalize hR : flattenResponsesH (hwrite h2 h.length "requestExamples" exVal)
                  (getFieldH h2 mv "method")
                  (getFieldH (hwrite h2 h.length "requestExamples" exVal) mv "responses") = R
              rw [hR] at F4
              have F5 : HeapFrame h0 (hwrite R.1 h.length "responses" R.2) :=
                frame_hwrite F4 hoi _ _
              have F6 := ih _ F5 (fun w hw => hcl w (by simp [hw]))
              cases hrec : flattenMethodsGo (hwrite R.1 h.length "responses" R.2) rest with
              | mk h6 r2 =>
                  rw [hrec] at F6
                  cases r2 with
                  | error e => exact F6
                  | ok more => exact F6

theorem frame_flattenMethodsH {h0 h : Heap} (HC : HeapClosed h0) (DF : DotFreeHeap h0)
    (F : HeapFrame h0 h) (mv : HVal) (hcl : HVal.closedB h0.length mv = true) :
    HeapFrame h0 (flattenMethodsH h mv).1 := by
  unfold flattenMethodsH
  have hfr := frame_flattenMethodsGo HC DF (elemsOf mv) h F (elems_closed mv hcl)
  cases hg : flattenMethodsGo h (elemsOf mv) with
  | mk h1 r =>
      rw [hg] at hfr
      cases r with
      | error e => exact hfr
      | ok refs => exact hfr

theorem frame_writeRecord {h0 h3 : Heap} (F : HeapFrame h0 h3) {ci : Nat}
    (hci : h0.length ≤ ci) (parents : List HVal) (res fmv : HVal) :
    HeapFrame h0 (writeRecord h3 ci parents res fmv) :=
  frame_hwrite (frame_hwrite (frame_hwrite F hci _ _) hci _ _) hci _ _

/-- Frame preservation of the heap resource recursion, by induction
on the fuel (first conjunct: `recurH`; second: `recurManyH`). -/
theorem frame_recur (h0 : Heap) (HC : HeapClosed h0) (DF : DotFreeHeap h0) :
    ∀ fuel : Nat,
      (∀ (h : Heap) (parents : List HVal) (res : HVal),
        HeapFrame h0 h → HVal.closedB h0.length res = true →
        HeapFrame h0 (recurH fuel h parents res).1)
      ∧ (∀ (h : Heap) (parents : List HVal) (cs : List HVal),
        HeapFrame h0 h → (∀ c ∈ cs, HVal.closedB h0.length c = true) →
        HeapFrame h0 (recurManyH fuel h parents cs).1) := by
  intro fuel
  induction fuel with
  | zero => exact ⟨fun h _ _ F _ => F, fun h _ _ F _ => F⟩
  | succ fuel ih =>
      constructor
      · intro h parents res F hres
        simp only [recurH, halloc]
        split
        · have hci : h0.length ≤ h.length := F.1
          have F1 : HeapFrame h0 (h ++ [fieldsOf h res]) := frame_append F _
          have F2 : HeapFrame h0 (hdelete (h ++ [fieldsOf h res]) h.length "resources") :=
            frame_hdelete F1 hci "resources"
          have hmcl : HVal.closedB h0.length
              (getFieldH (hdelete (h ++ [fieldsOf h res]) h.length "resources") res "methods") = true :=
            getFieldClosed HC F2 res hres "methods"
          have F3 := frame_flattenMethodsH HC DF F2 _ hmcl
          cases hfm : flattenMethodsH (hdelete (h ++ [fieldsOf h res]) h.length "resources")
              (getFieldH (hdelete (h ++ [fieldsOf h res]) h.length "resources") res "methods") with
          | mk h3 r =>
              rw [hfm] at F3
              cases r with
              | error e => exact F3
              | ok fmv =>
                  dsimp only
                  have F6 : HeapFrame h0 (writeRecord h3 h.length parents res fmv) :=
                    frame_writeRecord F3 hci parents res fmv
                  have hccl : ∀ c ∈ elemsOf (getFieldH h3 res "resources"),
                      HVal.closedB h0.length c = true :=
                    elems_closed _ (getFieldClosed HC F3 res hres "resources")
                  have F7 := ih.2 (writeRecord h3 h.length parents res fmv) (parents ++ [res])
                    (elemsOf (getFieldH h3 res "resources")) F6 hccl
                  cases hrm : recurManyH fuel (writeRecord h3 h.length parents res fmv)
                      (parents ++ [res]) (elemsOf (getFieldH h3 res "resources")) with
                  | mk h7 r2 =>
                      rw [hrm] at F7
                      cases r2 with
                      | error e => exact F7
                      | ok rs => exact F7
        · exact F
      · intro h parents cs F hcl
        cases cs with
        | nil => exact F
        | cons c cs =>
            simp only [recurManyH]
            have F1 := ih.1 h parents c F (hcl c (by simp))
            cases hc : recurH fuel h parents c with
            | mk h1 r =>
                rw [hc] at F1
                cases r with
                | error e => exact F1
                | ok a =>
                    dsimp only
                    have F2 := ih.2 h1 parents cs F1 (fun w hw => hcl w (by simp [hw]))
                    cases hcs : recurManyH fuel h1 parents cs with
                    | mk h2 r2 =>
                        rw [hcs] at F2
                        cases r2 with
                        | error e => exact F2
                        | ok b => exact F2

theorem frame_traitsToObjectH {h0 h : Heap} (F : HeapFrame h0 h) (tv : HVal) :
    HeapFrame h0 (traitsToObjectH h tv).1 := by
  unfold traitsToObjectH
  simp only [halloc]
  refine frame_foldl _ (fun hh x Fh => ?_) _ _ (frame_append F [])
  cases (fieldsOf hh x).head? with
  | some p => exact frame_hwrite Fh F.1 _ _
  | none => exact frame_hwrite Fh F.1 _ _

/-- Claim C9 as amended: for every input heap that is closed (no
dangling references - automatic in a real JavaScript heap) and in
which no object's `displayName` field contains a dot (so every
`_.set` path has a single segment), running the hierarchy flattener
leaves every pre-existing object unchanged: the input heap is a
prefix of the output heap, address by address and field by field.
Without the dot-free restriction the claim is false - see
`claim9_counterexample`. -/
theorem claim9_amended (fuel : Nat) (h0 : Heap) (root : HVal)
    (HC : HeapClosed h0) (DF : DotFreeHeap h0)
    (hroot : HVal.closedB h0.length root = true) :
    HeapFrame h0 (flattenHierarchyH fuel h0 root).1 := by
  unfold flattenHierarchyH
  have F1 : HeapFrame h0 (traitsToObjectH h0 (getFieldH h0 root "traits")).1 :=
    frame_traitsToObjectH (frame_refl h0) _
  unfold flattenResourcesH
  cases ht : traitsToObjectH h0 (getFieldH h0 root "traits") with
  | mk h1 traits =>
      rw [ht] at F1
      dsimp only
      have F2 := (frame_recur h0 HC DF fuel).1 h1 [] root F1 hroot
      cases hrec : recurH fuel h1 [] root with
      | mk h2 r =>
          rw [hrec] at F2
          cases r with
          | error e => exact F2
          | ok xs =>
              dsimp only [halloc]
              exact frame_append F2 _

/-- Witness for the amended C9 at a one-object document. -/
theorem claim9_amended_witness :
    HeapClosed [[("title", HVal.hstr "t")]]
    ∧ DotFreeHeap [[("title", HVal.hstr "t")]]
    ∧ HVal.closedB (List.length [[("title", HVal.hstr "t")]]) (HVal.href 0) = true
    ∧ HeapFrame [[("title", HVal.hstr "t")]]
        (flattenHierarchyH 3 [[("title", HVal.hstr "t")]] (HVal.href 0)).1 := by
  have hc : HeapClosed [[("title", HVal.hstr "t")]] := by
    intro i o hio p hp
    match i with
    | 0 =>
        cases hio
        simp only [List.mem_singleton] at hp
        subst hp
        simp [HVal.closedB]
    | Nat.succ m => simp [getAt] at hio
  have hdf : DotFreeHeap [[("title", HVal.hstr "t")]] := by
    intro i o s hio hdn
    match i with
    | 0 =>
        cases hio
        simp [objGet] at hdn
    | Nat.succ m => simp [getAt] at hio
  have hcl : HVal.closedB (List.length [[("title", HVal.hstr "t")]]) (HVal.href 0) = true := by
    simp [HVal.closedB]
  exact ⟨hc, hdf, hcl, claim9_amended 3 [[("title", HVal.hstr "t")]] (HVal.href 0) hc hdf hcl⟩

/-- Counterexample to C9 as stated: the input document below has a
method with two parameters, the first carrying a literal object
example (input object 4) under display name `x`, the second a dotted
display name `x.y`.  `_.set` then navigates through the composite's
`x` entry - which aliases input object 4 - and writes `y` into it:
after a successful run, input object 4 has gained a field, so the
input tree is mutated even though every record and method object was
shallow-cloned. -/
theorem claim9_counterexample :
    getAt [[("relativeUri", HVal.hstr "/a"), ("methods", HVal.harr [HVal.href 1])],
           [("method", HVal.hstr "get"), ("params", HVal.harr [HVal.href 2, HVal.href 3])],
           [("displayName", HVal.hstr "x"), ("example", HVal.href 4)],
           [("displayName", HVal.hstr "x.y"), ("example", HVal.hstr "v")],
           []] 4 = some []
    ∧ getAt (flattenHierarchyH 5
        [[("relativeUri", HVal.hstr "/a"), ("methods", HVal.harr [HVal.href 1])],
         [("method", HVal.hstr "get"), ("params", HVal.harr [HVal.href 2, HVal.href 3])],
         [("displayName", HVal.hstr "x"), ("example", HVal.href 4)],
         [("displayName", HVal.hstr "x.y"), ("example", HVal.hstr "v")],
         []] (HVal.href 0)).1 4 = some [("y", HVal.hstr "v")]
    ∧ (∃ out, (flattenHierarchyH 5
        [[("relativeUri", HVal.hstr "/a"), ("methods", HVal.harr [HVal.href 1])],
         [("method", HVal.hstr "get"), ("params", HVal.harr [HVal.href 2, HVal.href 3])],
         [("displayName", HVal.hstr "x"), ("example", HVal.href 4)],
         [("displayName", HVal.hstr "x.y"), ("example", HVal.hstr "v")],
         []] (HVal.href 0)).2 = Except.ok out)
    ∧ some ([("y", HVal.hstr "v")] : HObj) ≠ some ([] : HObj) := by
  refine ⟨rfl, rfl, ⟨HVal.href 9, rfl⟩, ?_⟩
  intro hcontra
  simp at hcontra
